import Mathlib

/-!
Verification of the tool-approval and execution-gating subsystem of the
`ava` personal assistant.  Each definition is a shallow embedding of one
function of the Rust source; the doc comment names the file and line
range it mirrors.  Strings are modelled as lists of characters; the
asynchronous collaborators (model provider, SQLite store, Telegram
transport, subprocess) are passed in as explicit oracle parameters.
-/

namespace Ava

/-- White-space test mirroring Rust `char::is_whitespace` (the Unicode
White_Space property), which underlies `str::split_whitespace` and
`str::trim` in src/db/mod.rs. -/
def isWs (c : Char) : Bool :=
  let n := c.toNat
  n = 0x20 || (0x9 ≤ n && n ≤ 0xd) || n = 0x85 || n = 0xa0 || n = 0x1680 ||
  (0x2000 ≤ n && n ≤ 0x200a) || n = 0x2028 || n = 0x2029 || n = 0x202f ||
  n = 0x205f || n = 0x3000

/-- Accumulator pass of the whitespace tokenizer (`str::split_whitespace`
as used at src/db/mod.rs lines 206-207 and 245); `acc` holds the current
token reversed, and empty tokens are never produced. -/
def tokenizeAux : List Char → List Char → List (List Char)
  | acc, [] => if acc.isEmpty then [] else [acc.reverse]
  | acc, c :: rest =>
    if isWs c then
      if acc.isEmpty then tokenizeAux [] rest
      else acc.reverse :: tokenizeAux [] rest
    else tokenizeAux (c :: acc) rest

/-- Whitespace tokenization of a pattern or command string. -/
def tokenize (s : List Char) : List (List Char) :=
  tokenizeAux [] s

/-- Drop leading whitespace (one side of Rust `str::trim`). -/
def trimLeft (s : List Char) : List Char :=
  s.dropWhile isWs

/-- Rust `str::trim`: drop whitespace from both ends (applied to each
sub-command at src/db/mod.rs line 154). -/
def trim (s : List Char) : List Char :=
  trimLeft ((trimLeft s.reverse).reverse)

/-- Byte scan of `split_subcommands` (src/db/mod.rs 158-202): cut the
command at `|`, `||`, `&&` and `;`, pushing the text accumulated so far
(reversed in `acc`) at each separator, and the final segment only when it
is nonempty. -/
def splitSubsAux : List Char → List Char → List (List Char)
  | acc, [] => if acc.isEmpty then [] else [acc.reverse]
  | acc, c :: rest =>
    if c = '|' then
      match rest with
      | r :: rest2 =>
        if r = '|' then acc.reverse :: splitSubsAux [] rest2
        else acc.reverse :: splitSubsAux [] (r :: rest2)
      | [] => acc.reverse :: splitSubsAux [] []
    else if c = ';' then acc.reverse :: splitSubsAux [] rest
    else if c = '&' then
      match rest with
      | r :: rest2 =>
        if r = '&' then acc.reverse :: splitSubsAux [] rest2
        else splitSubsAux ('&' :: acc) (r :: rest2)
      | [] => splitSubsAux ('&' :: acc) []
    else splitSubsAux (c :: acc) rest

/-- Mirrors `split_subcommands` (src/db/mod.rs 158-202). -/
def split_subcommands (command : List Char) : List (List Char) :=
  splitSubsAux [] command

/-- Pairwise token walk of `matches_single` (src/db/mod.rs 205-240): a
literal pattern token must equal the command token at the same position;
`*` in a non-final position consumes exactly one command token; `*` in
the final position matches any remainder; an exhausted pattern requires
the command to have exactly the same token count. -/
def matchTokens : List (List Char) → List (List Char) → Bool
  | [], cmd => cmd.isEmpty
  | p :: ps, cmd =>
    if ps.isEmpty then
      if p = ['*'] then true
      else
        match cmd with
        | [] => false
        | c :: rest => if p = c then rest.isEmpty else false
    else
      match cmd with
      | [] => false
      | c :: cs => if p = ['*'] ∨ p = c then matchTokens ps cs else false

/-- Mirrors `matches_single` (src/db/mod.rs 205-240): tokenize both
pattern and command on whitespace and walk the tokens pairwise. -/
def matches_single (pattern command : List Char) : Bool :=
  matchTokens (tokenize pattern) (tokenize command)

/-- Mirrors `matches_rule` (src/db/mod.rs 148-155): the pattern must
match every (trimmed) sub-command of the chained command. -/
def matches_rule (pattern command : List Char) : Bool :=
  (split_subcommands command).all fun sub => matches_single pattern (trim sub)

/-- Mirrors `generate_pattern` (src/db/mod.rs 244-247): the first
whitespace token of the command (or the whole command when it has no
tokens, per `unwrap_or(command)`) followed by `" *"`. -/
def generate_pattern (command : List Char) : List Char :=
  let first :=
    match tokenize command with
    | [] => command
    | t :: _ => t
  first ++ [' ', '*']

/-- A persisted approval rule (src/db/mod.rs 19-23). -/
structure ApprovalRule where
  id : Int
  pattern : List Char

/-- Mirrors `Database::find_matching_rule` (src/db/mod.rs 86-94): walk
the stored rules in storage order (the `approval_rules` table ordered by
id, modelled as the input list) and return the id of the first rule whose
pattern matches the command. -/
def find_matching_rule (rules : List ApprovalRule) (command : List Char) : Option Int :=
  match rules with
  | [] => none
  | r :: rest =>
    if matches_rule r.pattern command then some r.id
    else find_matching_rule rest command

/-- A shell chain/pipe separator character as scanned by
`split_subcommands` (`&` only cuts as the pair `&&`, but excluding it
entirely gives a convenient sufficient condition). -/
def isSep (c : Char) : Bool :=
  c = '|' || c = ';' || c = '&'

theorem tokenizeAux_ne_nil (l : List Char) :
    ∀ acc : List Char, acc ≠ [] → tokenizeAux acc l ≠ [] := by
  induction l with
  | nil =>
    intro acc h
    cases acc with
    | nil => exact absurd rfl h
    | cons a as => simp [tokenizeAux]
  | cons c rest ih =>
    intro acc h
    cases acc with
    | nil => exact absurd rfl h
    | cons a as =>
      by_cases hw : isWs c
      · simp [tokenizeAux, hw]
      · simpa [tokenizeAux, hw] using ih (c :: a :: as) (by simp)

theorem tokenize_eq_nil_all_ws (l : List Char) (h : tokenize l = []) :
    ∀ x ∈ l, isWs x = true := by
  induction l with
  | nil => intro x hx; cases hx
  | cons c rest ih =>
    intro x hx
    by_cases hw : isWs c
    · rcases List.mem_cons.mp hx with rfl | hx
      · exact hw
      · exact ih (by simpa [tokenize, tokenizeAux, hw] using h) x hx
    · exfalso
      have : tokenizeAux [c] rest ≠ [] := tokenizeAux_ne_nil rest [c] (by simp)
      exact this (by simpa [tokenize, tokenizeAux, hw] using h)

theorem tokenizeAux_tokens_clean (l : List Char) :
    ∀ acc : List Char, (∀ x ∈ acc, isWs x = false) →
      ∀ t ∈ tokenizeAux acc l, t ≠ [] ∧ ∀ x ∈ t, isWs x = false := by
  induction l with
  | nil =>
    intro acc hacc t ht
    cases acc with
    | nil => simp [tokenizeAux] at ht
    | cons a as =>
      rw [tokenizeAux, if_neg (by simp)] at ht
      rcases List.mem_singleton.mp ht with rfl
      refine ⟨by simp, ?_⟩
      intro x hx
      exact hacc x (List.mem_reverse.mp hx)
  | cons c rest ih =>
    intro acc hacc t ht
    by_cases hw : isWs c
    · cases acc with
      | nil =>
        exact ih [] (by simp) t (by simpa [tokenizeAux, hw] using ht)
      | cons a as =>
        rw [tokenizeAux, if_pos hw, if_neg (by simp)] at ht
        rcases List.mem_cons.mp ht with rfl | ht
        · refine ⟨by simp, ?_⟩
          intro x hx
          exact hacc x (List.mem_reverse.mp hx)
        · exact ih [] (by simp) t ht
    · refine ih (c :: acc) ?_ t (by simpa [tokenizeAux, hw] using ht)
      intro x hx
      rcases List.mem_cons.mp hx with rfl | hx
      · simpa using hw
      · exact hacc x hx

theorem tokenize_tokens_clean (l : List Char) :
    ∀ t ∈ tokenize l, t ≠ [] ∧ ∀ x ∈ t, isWs x = false := by
  intro t ht
  exact tokenizeAux_tokens_clean l [] (by simp) t ht

theorem tokenizeAux_token_append (r : List Char) :
    ∀ (t acc : List Char), (∀ x ∈ t, isWs x = false) → acc ≠ [] ∨ t ≠ [] →
      tokenizeAux acc (t ++ ' ' :: r) = (acc.reverse ++ t) :: tokenizeAux [] r := by
  intro t
  induction t with
  | nil =>
    intro acc hclean hne
    rcases hne with hne | hne
    · cases acc with
      | nil => exact absurd rfl hne
      | cons a as => simp [tokenizeAux, isWs]
    · exact absurd rfl hne
  | cons c t ih =>
    intro acc hclean hne
    have hc : isWs c = false := hclean c (by simp)
    have hstep := ih (c :: acc) (by intro x hx; exact hclean x (by simp [hx])) (Or.inl (by simp))
    rw [List.cons_append]
    rw [show tokenizeAux acc (c :: (t ++ ' ' :: r)) = tokenizeAux (c :: acc) (t ++ ' ' :: r) by
      simp [tokenizeAux, hc]]
    rw [hstep]
    simp

theorem tokenizeAux_leading_ws (w : List Char) (hw : ∀ x ∈ w, isWs x = true) (m : List Char) :
    tokenizeAux [] (w ++ m) = tokenizeAux [] m := by
  induction w with
  | nil => rfl
  | cons c rest ih =>
    have hc : isWs c = true := hw c (by simp)
    have : ∀ x ∈ rest, isWs x = true := by
      intro x hx
      exact hw x (by simp [hx])
    simpa [tokenizeAux, hc] using ih this

theorem tokenizeAux_all_ws (w : List Char) :
    ∀ acc : List Char, (∀ x ∈ w, isWs x = true) →
      tokenizeAux acc w = if acc.isEmpty then [] else [acc.reverse] := by
  induction w with
  | nil => intro acc _; rfl
  | cons c rest ih =>
    intro acc hw
    have hc : isWs c = true := hw c (by simp)
    have hrest : ∀ x ∈ rest, isWs x = true := by
      intro x hx
      exact hw x (by simp [hx])
    cases acc with
    | nil => simpa [tokenizeAux, hc] using ih [] hrest
    | cons a as => simpa [tokenizeAux, hc] using ih [] hrest

theorem tokenizeAux_append_ws (l : List Char) :
    ∀ (acc w : List Char), (∀ x ∈ w, isWs x = true) →
      tokenizeAux acc (l ++ w) = tokenizeAux acc l := by
  induction l with
  | nil =>
    intro acc w hw
    rw [List.nil_append, tokenizeAux_all_ws w acc hw]
    cases acc <;> simp [tokenizeAux]
  | cons c rest ih =>
    intro acc w hw
    by_cases hc : isWs c
    · cases acc with
      | nil => simpa [tokenizeAux, hc] using ih [] w hw
      | cons a as => simpa [tokenizeAux, hc] using ih [] w hw
    · simpa [tokenizeAux, hc] using ih (c :: acc) w hw

theorem tokenize_trim (s : List Char) : tokenize (trim s) = tokenize s := by
  have hsplit : s = (trimLeft s.reverse).reverse ++ (s.reverse.takeWhile isWs).reverse := by
    simp only [trimLeft]
    rw [← List.reverse_append, List.takeWhile_append_dropWhile, List.reverse_reverse]
  have hws : ∀ x ∈ (s.reverse.takeWhile isWs).reverse, isWs x = true := by
    intro x hx
    exact List.mem_takeWhile_imp (by simpa using hx)
  have h1 : tokenize ((trimLeft s.reverse).reverse) = tokenize s := by
    conv_rhs => rw [hsplit]
    exact (tokenizeAux_append_ws _ [] _ hws).symm
  have h2 : ∀ u : List Char, tokenize (trimLeft u) = tokenize u := by
    intro u
    conv_rhs => rw [← List.takeWhile_append_dropWhile (p := isWs) (l := u)]
    have : ∀ x ∈ u.takeWhile isWs, isWs x = true := by
      intro x hx
      exact List.mem_takeWhile_imp hx
    exact (tokenizeAux_leading_ws _ this _).symm
  rw [trim, h2, h1]

theorem splitSubsAux_no_sep (l : List Char) :
    ∀ acc : List Char, (∀ x ∈ l, isSep x = false) →
      splitSubsAux acc l = if (acc.reverse ++ l).isEmpty then [] else [acc.reverse ++ l] := by
  induction l with
  | nil =>
    intro acc _
    cases acc <;> simp [splitSubsAux]
  | cons c rest ih =>
    intro acc hsep
    have hc : isSep c = false := hsep c (by simp)
    have hc1 : ¬ c = '|' := by intro h; simp [isSep, h] at hc
    have hc2 : ¬ c = ';' := by intro h; simp [isSep, h] at hc
    have hc3 : ¬ c = '&' := by intro h; simp [isSep, h] at hc
    have hrest : ∀ x ∈ rest, isSep x = false := by
      intro x hx
      exact hsep x (by simp [hx])
    rw [show splitSubsAux acc (c :: rest) = splitSubsAux (c :: acc) rest by
      rw [splitSubsAux.eq_def]
      simp [hc1, hc2, hc3]]
    rw [ih (c :: acc) hrest]
    simp

theorem split_subcommands_no_sep (c : List Char) (hne : c ≠ [])
    (hsep : ∀ x ∈ c, isSep x = false) : split_subcommands c = [c] := by
  rw [split_subcommands, splitSubsAux_no_sep c [] hsep]
  cases c with
  | nil => exact absurd rfl hne
  | cons a as => simp

theorem matchTokens_no_wildcard (pts : List (List Char)) (h : ['*'] ∉ pts) :
    ∀ cts, (matchTokens pts cts = true ↔ pts = cts) := by
  induction pts with
  | nil =>
    intro cts
    cases cts <;> simp [matchTokens]
  | cons p ps ih =>
    intro cts
    have hp : ¬ p = ['*'] := fun hh => h (by simp [hh])
    have hps : ['*'] ∉ ps := fun hh => h (by simp [hh])
    cases ps with
    | nil =>
      cases cts with
      | nil => simp [matchTokens, hp]
      | cons c rest =>
        by_cases hpc : p = c
        · subst hpc
          cases rest <;> simp [matchTokens, hp]
        · simp [matchTokens, hp, hpc]
    | cons q qs =>
      cases cts with
      | nil => simp [matchTokens]
      | cons c cs =>
        by_cases hpc : p = c
        · subst hpc
          simpa [matchTokens, hp] using ih hps cs
        · simp [matchTokens, hp, hpc]

theorem matchTokens_trailing_wildcard (lits : List (List Char)) :
    ∀ rest, matchTokens (lits ++ [['*']]) (lits ++ rest) = true := by
  induction lits with
  | nil => intro rest; simp [matchTokens]
  | cons l lits ih =>
    intro rest
    simpa [matchTokens] using ih rest

/-- C4 counterexample: for the chained command `ls -la | rm foo`, the
synthesized pattern is `ls *`, yet `matches_rule` rejects the very
command the pattern was generated from, because the second sub-command
`rm foo` does not match — so `matches(generate_pattern(c), c)` is not
true for every command `c`. -/
theorem generate_pattern_not_self_matching_on_chain :
    generate_pattern ("ls -la | rm foo".toList) = "ls *".toList ∧
    matches_rule (generate_pattern ("ls -la | rm foo".toList))
      ("ls -la | rm foo".toList) = false := by
  constructor
  · decide
  · decide

/-- C4 (amended): for every command containing no chain/pipe separator
character (`|`, `;`, `&`), the pattern synthesized by `generate_pattern`
immediately matches the command it was synthesized from. -/
theorem generate_pattern_self_match (c : List Char)
    (hsep : ∀ x ∈ c, isSep x = false) :
    matches_rule (generate_pattern c) c = true := by
  by_cases hne : c = []
  · subst hne; decide
  · rw [matches_rule, split_subcommands_no_sep c hne hsep]
    simp only [List.all_cons, List.all_nil, Bool.and_true]
    rw [matches_single, tokenize_trim]
    cases htok : tokenize c with
    | nil =>
      have hws := tokenize_eq_nil_all_ws c htok
      have hpat : tokenize (generate_pattern c) = [['*']] := by
        simp only [generate_pattern, htok]
        rw [tokenize, tokenizeAux_leading_ws c hws [' ', '*']]
        decide
      rw [hpat]
      decide
    | cons t ts =>
      have hclean := tokenize_tokens_clean c t (by rw [htok]; simp)
      have hpat : tokenize (generate_pattern c) = [t, ['*']] := by
        simp only [generate_pattern, htok]
        rw [tokenize, tokenizeAux_token_append ['*'] t [] hclean.2 (Or.inr hclean.1)]
        simp [tokenizeAux]
        decide
      rw [hpat]
      simp [matchTokens]

/-- C4 witness: the spec's own end-to-end example command. -/
theorem generate_pattern_self_match_witness :
    matches_rule (generate_pattern ("cargo test -- --nocapture".toList))
      ("cargo test -- --nocapture".toList) = true :=
  generate_pattern_self_match ("cargo test -- --nocapture".toList) (by decide)

/-- C5 counterexample: the pattern `echo * end` does not end in a
trailing wildcard, and it matches the command `echo x end` even though
the token lists differ (the non-final `*` consumes the unequal token
`x`), so "matches iff token-for-token equal" fails as stated. -/
theorem matches_without_token_equality :
    (tokenize "echo * end".toList).getLast? ≠ some ['*'] ∧
    matches_rule "echo * end".toList "echo x end".toList = true ∧
    tokenize "echo * end".toList ≠ tokenize "echo x end".toList := by
  refine ⟨by decide, by decide, by decide⟩

/-- C5 (amended): for every pattern containing no wildcard token at all
and every nonempty command free of chain/pipe separator characters,
`matches_rule` holds iff pattern and command tokenize to exactly the same
token list (same length, same content). -/
theorem matches_rule_no_wildcard_iff_token_equal (p c : List Char)
    (hp : ['*'] ∉ tokenize p) (hsep : ∀ x ∈ c, isSep x = false)
    (hne : c ≠ []) :
    (matches_rule p c = true ↔ tokenize p = tokenize c) := by
  rw [matches_rule, split_subcommands_no_sep c hne hsep]
  simp only [List.all_cons, List.all_nil, Bool.and_true]
  rw [matches_single, tokenize_trim]
  exact matchTokens_no_wildcard (tokenize p) hp (tokenize c)

/-- C5 witness: `git status` vs `git status`. -/
theorem matches_rule_no_wildcard_iff_token_equal_witness :
    (matches_rule "git status".toList "git status".toList = true ↔
      tokenize "git status".toList = tokenize "git status".toList) :=
  matches_rule_no_wildcard_iff_token_equal _ _ (by decide) (by decide) (by decide)

/-- C6 counterexample: `ls *` ends in a trailing wildcard and the first
token of `ls a;rm b` equals its literal token `ls`, yet the match fails,
because the command is split at `;` and the sub-command `rm b` does not
match — the claim does not hold for commands containing separators. -/
theorem trailing_wildcard_fails_on_chain :
    tokenize "ls *".toList = [['l', 's'], ['*']] ∧
    (tokenize "ls a;rm b".toList).take 1 = [['l', 's']] ∧
    matches_rule "ls *".toList "ls a;rm b".toList = false := by
  refine ⟨by decide, by decide, by decide⟩

/-- C6 (amended): for every pattern ending in a trailing wildcard and
every command free of chain/pipe separator characters whose leading
tokens equal the pattern's literal tokens, the match succeeds regardless
of what follows those tokens. -/
theorem matches_rule_trailing_wildcard (p c : List Char)
    (lits rest : List (List Char))
    (hp : tokenize p = lits ++ [['*']]) (hc : tokenize c = lits ++ rest)
    (hsep : ∀ x ∈ c, isSep x = false) :
    matches_rule p c = true := by
  by_cases hne : c = []
  · subst hne; rfl
  · rw [matches_rule, split_subcommands_no_sep c hne hsep]
    simp only [List.all_cons, List.all_nil, Bool.and_true]
    rw [matches_single, tokenize_trim, hp, hc]
    exact matchTokens_trailing_wildcard lits rest

/-- C6 witness: `cargo *` against `cargo build xyz`. -/
theorem matches_rule_trailing_wildcard_witness :
    matches_rule "cargo *".toList "cargo build xyz".toList = true :=
  matches_rule_trailing_wildcard _ _ ["cargo".toList]
    ["build".toList, "xyz".toList] (by decide) (by decide) (by decide)

/-- C10: splitting the empty command yields zero sub-commands, so
`matches_rule` is vacuously true on the empty command for every pattern,
even one with non-empty literal tokens and no trailing wildcard. -/
theorem matches_rule_empty_command :
    split_subcommands [] = [] ∧ ∀ p : List Char, matches_rule p [] = true :=
  ⟨rfl, fun _ => rfl⟩

-- Sanity checks replaying the unit tests of src/db/mod.rs.
example : matches_rule "ls *".toList "ls".toList = true := by decide
example : matches_rule "ls *".toList "ls -la /tmp".toList = true := by decide
example : matches_rule "ls *".toList "rm foo".toList = false := by decide
example : matches_rule "git status".toList "git status".toList = true := by decide
example : matches_rule "git status".toList "git status -v".toList = false := by decide
example : matches_rule "git status".toList "git".toList = false := by decide
example : matches_rule "cargo test *".toList "cargo test -- --nocapture".toList = true := by decide
example : matches_rule "ls *".toList "ls -la | ls /tmp".toList = true := by decide
example : matches_rule "ls *".toList "ls -la | rm foo".toList = false := by decide
example : matches_rule "cargo *".toList "cargo fmt && cargo test".toList = true := by decide
example : matches_rule "cargo *".toList "cargo fmt && rm foo".toList = false := by decide
example : generate_pattern "ls -la /tmp".toList = "ls *".toList := by decide
example : generate_pattern "cargo test -- --nocapture".toList = "cargo *".toList := by decide

/-! Tool executor and orchestrator gate (src/tool/mod.rs, src/agent/mod.rs). -/

/-- Structured tool input (`serde_json::Value`). -/
inductive Json
  | null
  | bool (b : Bool)
  | num (n : Int)
  | str (s : String)
  | arr (elems : List Json)
  | obj (fields : List (String × Json))

/-- Field lookup on an object value (how serde reads a struct field). -/
def Json.getField : Json → String → Option Json
  | .obj fields, k => fields.lookup k
  | _, _ => none

/-- Mirrors `ToolCall` (src/tool/mod.rs 27-32). -/
structure ToolCall where
  id : String
  name : String
  input : Json

/-- Mirrors `ApprovalDecision` (src/tool/mod.rs 43-49). -/
inductive ApprovalDecision
  | allowOnce
  | allowAlways (pattern : String)
  | deny
  | autoApproved
deriving DecidableEq

/-- The error variants of src/error.rs reachable from the gating
subsystem. -/
inductive Error
  | database (msg : String)
  | provider (msg : String)
  | telegram (msg : String)
  | approvalTimeout
deriving DecidableEq

/-- Mirrors `MessageContent` (src/message.rs 19-32). -/
inductive MessageContent
  | text (t : String)
  | toolUse (id name : String) (input : Json)
  | toolResult (tool_use_id content : String)

abbrev REMEMBER_FACT_TOOL_NAME : String := "remember_fact"
abbrev EXEC_TOOL_NAME : String := "exec"
abbrev WEB_SEARCH_TOOL_NAME : String := "web_search"
abbrev WEB_FETCH_TOOL_NAME : String := "web_fetch"

/-- Mirrors `requires_approval` (src/tool/mod.rs 68-70): only the exec
tool is execution-class. -/
def requires_approval (call : ToolCall) : Bool :=
  call.name == EXEC_TOOL_NAME

/-- Does `hay` start with `needle`? (helper for Rust `str::contains`). -/
def listStartsWith : List Char → List Char → Bool
  | _, [] => true
  | [], _ :: _ => false
  | h :: hs, n :: ns => if h = n then listStartsWith hs ns else false

/-- Rust `str::contains` as a substring scan over characters. -/
def listContains : List Char → List Char → Bool
  | [], needle => needle.isEmpty
  | h :: rest, needle => listStartsWith (h :: rest) needle || listContains rest needle

/-- Mirrors `BLOCKED_PATTERNS` (src/tool/mod.rs 74-82). -/
def BLOCKED_PATTERNS : List String :=
  ["rm -rf /", "rm -rf /*", "mkfs", "dd if=", "> /dev/sd", ":()\x7b :|:& \x7d;:", ".fork"]

/-- Mirrors `check_safety_filter` (src/tool/mod.rs 85-93): a pure
substring scan of the trimmed command against the deny-list, returning
the fixed reason on the first hit. -/
def check_safety_filter (command : String) : Option String :=
  let trimmed := trim command.toList
  if BLOCKED_PATTERNS.any (fun p => listContains trimmed p.toList) then
    some "command blocked: matches safety filter"
  else none

/-- Mirrors `ExecInput` (src/tool/mod.rs 122-125). -/
structure ExecInput where
  command : String
  timeout_secs : Option Nat
deriving DecidableEq

/-- Mirrors `RememberFactInput` (src/tool/mod.rs 115-119). -/
structure RememberFactInput where
  category : String
  key : String
  value : String
deriving DecidableEq

/-- Mirrors `WebSearchInput` (src/tool/mod.rs 128-131). -/
structure WebSearchInput where
  query : String
  max_results : Option Nat
deriving DecidableEq

/-- Mirrors `WebFetchInput` (src/tool/mod.rs 134-137). -/
structure WebFetchInput where
  url : String
  max_chars : Option Nat
deriving DecidableEq

/-- serde deserialization of an `Option<u64>` field: absent or null is
`None`; a non-negative integer is `Some`; anything else is an error. -/
def parseOptU64 : Option Json → Option (Option Nat)
  | none => some none
  | some .null => some none
  | some (.num n) => if n < 0 then none else some (some n.toNat)
  | some _ => none

/-- serde deserialization of `ExecInput` from the call input. -/
def parseExecInput (j : Json) : Option ExecInput :=
  match j.getField "command" with
  | some (.str c) =>
    match parseOptU64 (j.getField "timeout_secs") with
    | some t => some { command := c, timeout_secs := t }
    | none => none
  | _ => none

/-- serde deserialization of `RememberFactInput` from the call input. -/
def parseRememberFactInput (j : Json) : Option RememberFactInput :=
  match j.getField "category", j.getField "key", j.getField "value" with
  | some (.str c), some (.str k), some (.str v) => some ⟨c, k, v⟩
  | _, _, _ => none

/-- serde deserialization of `WebSearchInput` from the call input. -/
def parseWebSearchInput (j : Json) : Option WebSearchInput :=
  match j.getField "query" with
  | some (.str q) =>
    match parseOptU64 (j.getField "max_results") with
    | some m => some { query := q, max_results := m }
    | none => none
  | _ => none

/-- serde deserialization of `WebFetchInput` from the call input. -/
def parseWebFetchInput (j : Json) : Option WebFetchInput :=
  match j.getField "url" with
  | some (.str u) =>
    match parseOptU64 (j.getField "max_chars") with
    | some m => some { url := u, max_chars := m }
    | none => none
  | _ => none

def MAX_OUTPUT_CHARS : Nat := 4000

/-- Mirrors `truncate_output` (src/tool/mod.rs 248-255); the length
guard is in bytes (`str::len`) while truncation takes characters, as in
the source. -/
def truncate_output (output : String) : String :=
  if output.utf8ByteSize ≤ MAX_OUTPUT_CHARS then output
  else String.mk (output.toList.take MAX_OUTPUT_CHARS) ++ "\n... (output truncated)"

/-- Outcome of the timed subprocess wait in `execute_command`
(src/tool/mod.rs 210-245): the process completed (optional exit code
plus permissively decoded output streams — `from_utf8_lossy` never
fails, so the streams are plain strings), the spawn failed with an I/O
error, or the timeout elapsed. -/
inductive RunOutcome
  | completed (code : Option Int) (stdout stderr : String)
  | ioError (msg : String)
  | timedOut

def DEFAULT_TIMEOUT_SECS : Nat := 30
def MAX_TIMEOUT_SECS : Nat := 300

/-- Mirrors `execute_command` (src/tool/mod.rs 198-246).  The subprocess
is an oracle mapping the effective timeout to a `RunOutcome`; the
safety-filter short-circuit, the silent clamping of the timeout and the
formatting of the result text follow the source.  The return type is a
plain string: no failure mode escapes as an error. -/
def execute_command (run : Nat → RunOutcome) (command : String)
    (timeout_secs : Option Nat) : String :=
  match check_safety_filter command with
  | some reason => reason
  | none =>
    let timeout := min (timeout_secs.getD DEFAULT_TIMEOUT_SECS) MAX_TIMEOUT_SECS
    match run timeout with
    | .completed code stdout stderr =>
      let codeVal := code.getD (-1)
      let r1 := "exit code: " ++ toString codeVal
      let r2 := if stdout.isEmpty then r1 else r1 ++ "\nstdout:\n" ++ stdout
      let r3 := if stderr.isEmpty then r2 else r2 ++ "\nstderr:\n" ++ stderr
      let r4 := if stdout.isEmpty && stderr.isEmpty then r3 ++ "\n(no output)" else r3
      truncate_output r4
    | .ioError e => "failed to execute command: " ++ e
    | .timedOut => "command timed out after " ++ toString timeout ++ "s"

/-- Oracles for the external collaborators of the executor and gate: the
SQLite store (whose operations can fail, src/db/mod.rs 60-83) and the
outbound web calls (whose Rust counterparts return plain strings — every
failure is already folded into descriptive text inside them,
src/tool/mod.rs 277-333 and 372-421). -/
structure Collaborators where
  dbRemember : String → String → String → Except Error Unit
  dbSaveRule : String → Except Error Unit
  run : Nat → RunOutcome
  webSearch : String → Option Nat → String
  webFetch : String → Option Nat → String

/-- Mirrors `handle_tool_call` (src/tool/mod.rs 139-194): dispatch on
the tool name; undeserializable input degrades to an `invalid input`
tool-result text (the serde message itself is abstracted); the only `?`
in the function is on `db.remember_fact` (line 145). -/
def handle_tool_call (env : Collaborators) (call : ToolCall) :
    Except Error MessageContent :=
  if call.name = REMEMBER_FACT_TOOL_NAME then
    match parseRememberFactInput call.input with
    | some input =>
      match env.dbRemember input.category input.key input.value with
      | .ok _ => .ok (.toolResult call.id "ok")
      | .error e => .error e
    | none => .ok (.toolResult call.id "invalid input: deserialization error")
  else if call.name = EXEC_TOOL_NAME then
    match parseExecInput call.input with
    | some input =>
      .ok (.toolResult call.id (execute_command env.run input.command input.timeout_secs))
    | none => .ok (.toolResult call.id "invalid input: deserialization error")
  else if call.name = WEB_SEARCH_TOOL_NAME then
    match parseWebSearchInput call.input with
    | some input => .ok (.toolResult call.id (env.webSearch input.query input.max_results))
    | none => .ok (.toolResult call.id "invalid input: deserialization error")
  else if call.name = WEB_FETCH_TOOL_NAME then
    match parseWebFetchInput call.input with
    | some input => .ok (.toolResult call.id (env.webFetch input.url input.max_chars))
    | none => .ok (.toolResult call.id "invalid input: deserialization error")
  else .ok (.toolResult call.id ("unknown tool: " ++ call.name))

/-- Observable outcome of one pass of
`Agent::handle_tool_call_with_approval` (src/agent/mod.rs 72-96):
whether the Approver was consulted, the pattern persisted by an
allow-always decision, and the value returned to the loop. -/
structure GateOutcome where
  approverInvoked : Bool
  savedPattern : Option String
  result : Except Error MessageContent

/-- Mirrors `Agent::handle_tool_call_with_approval` (src/agent/mod.rs
72-96); `approverResponse` is the oracle for
`self.approver.request_approval(call)`.  The function consults no stored
approval rule: every call classified by `requires_approval` goes to the
Approver. -/
def handle_tool_call_with_approval (env : Collaborators)
    (approverResponse : Except Error ApprovalDecision) (call : ToolCall) :
    GateOutcome :=
  if requires_approval call then
    match approverResponse with
    | .error e => ⟨true, none, .error e⟩
    | .ok .allowOnce => ⟨true, none, handle_tool_call env call⟩
    | .ok .autoApproved => ⟨true, none, handle_tool_call env call⟩
    | .ok (.allowAlways pattern) =>
      match env.dbSaveRule pattern with
      | .ok _ => ⟨true, some pattern, handle_tool_call env call⟩
      | .error e => ⟨true, some pattern, .error e⟩
    | .ok .deny => ⟨true, none, .ok (.toolResult call.id "command denied by user")⟩
  else ⟨false, none, handle_tool_call env call⟩

/-- A concrete, fully successful collaborator environment used to
instantiate closed statements. -/
def sampleEnv : Collaborators where
  dbRemember := fun _ _ _ => .ok ()
  dbSaveRule := fun _ => .ok ()
  run := fun _ => .completed (some 0) "" ""
  webSearch := fun _ _ => "no results"
  webFetch := fun _ _ => "(no content)"

/-- The spec's end-to-end example call: exec with
`cargo test -- --nocapture`. -/
def callCargo : ToolCall :=
  ⟨"toolu_1", "exec", Json.obj [("command", Json.str "cargo test -- --nocapture")]⟩

/-- The spec's end-to-end safety example call: exec with `rm -rf /`. -/
def callRmRf : ToolCall :=
  ⟨"toolu_2", "exec", Json.obj [("command", Json.str "rm -rf /")]⟩

/-- A valid `remember_fact` call. -/
def callRemember : ToolCall :=
  ⟨"toolu_3", "remember_fact",
    Json.obj [("category", Json.str "user"), ("key", Json.str "name"),
      ("value", Json.str "alex")]⟩

/-- Collaborators whose persistence layer fails on `remember_fact`. -/
def failingDbEnv : Collaborators :=
  { sampleEnv with dbRemember := fun _ _ _ => .error (.database "disk I/O error") }

theorem execute_command_blocked (run : Nat → RunOutcome) (command : String)
    (t : Option Nat) (reason : String)
    (h : check_safety_filter command = some reason) :
    execute_command run command t = reason := by
  simp [execute_command, h]

theorem handle_tool_call_exec (env : Collaborators) (call : ToolCall)
    (input : ExecInput) (hname : call.name = "exec")
    (hparse : parseExecInput call.input = some input) :
    handle_tool_call env call =
      .ok (.toolResult call.id
        (execute_command env.run input.command input.timeout_secs)) := by
  rw [handle_tool_call, hname]
  rw [if_neg (by decide), if_pos (by decide)]
  rw [hparse]

/-- C1 (fast path absent from the code): the stored rule `cargo *`
matches the command `cargo test -- --nocapture` under
`Database::find_matching_rule`, yet the orchestrator's gating step still
invokes the Approver for that call under every collaborator environment
and every approver response: `handle_tool_call_with_approval`
(src/agent/mod.rs 72-96) never consults the rule store
(`find_matching_rule` is dead code, src/db/mod.rs 85-86). -/
theorem fast_path_not_consulted :
    find_matching_rule [⟨1, "cargo *".toList⟩] "cargo test -- --nocapture".toList = some 1 ∧
    ∀ (env : Collaborators) (resp : Except Error ApprovalDecision),
      (handle_tool_call_with_approval env resp callCargo).approverInvoked = true := by
  refine ⟨by decide, ?_⟩
  intro env resp
  rcases resp with e | d
  · rfl
  · cases d with
    | allowOnce => rfl
    | autoApproved => rfl
    | deny => rfl
    | allowAlways p =>
      simp only [handle_tool_call_with_approval]
      rw [if_pos (by decide)]
      cases henv : env.dbSaveRule p <;> simp

/-- C2 counterexample: for the exec call with input
`{"command": "rm -rf /"}` and an approver answering `Deny`, the Approver
is invoked and the result is the denial text, not the safety-filter
reason: the safety check does not precede the approval step (it runs
inside `execute_command`, which a denial never reaches). -/
theorem safety_check_does_not_precede_approval :
    (handle_tool_call_with_approval sampleEnv (.ok .deny) callRmRf).approverInvoked = true ∧
    (handle_tool_call_with_approval sampleEnv (.ok .deny) callRmRf).result =
      .ok (.toolResult "toolu_2" "command denied by user") :=
  ⟨rfl, rfl⟩

/-- C2 (amended): the safety filter runs unconditionally inside
`execute_command` and cannot be overridden by any approval rule or human
decision.  For every collaborator environment (in particular every
subprocess oracle), an exec call whose parsed command contains a
deny-listed pattern yields, case by case over the approver response:
under every permitting decision — `AllowOnce`, `AutoApproved`, or
`AllowAlways` whose rule-store save succeeds — exactly the safety-filter
reason; under `Deny`, the standard denial text; under an approver
failure, or a failing rule-store save on `AllowAlways`, exactly that
propagated error.  These cases are exhaustive, so the subprocess result
never appears.  The check does, however, run at execution time, after
the approval step, not before it. -/
theorem safety_filter_cannot_be_overridden (env : Collaborators)
    (resp : Except Error ApprovalDecision) (call : ToolCall)
    (input : ExecInput) (reason : String)
    (hname : call.name = "exec")
    (hparse : parseExecInput call.input = some input)
    (hblocked : check_safety_filter input.command = some reason) :
    (∀ d, resp = .ok d → d ≠ .deny →
      (∀ p, d = .allowAlways p → env.dbSaveRule p = .ok ()) →
      (handle_tool_call_with_approval env resp call).result =
        .ok (.toolResult call.id reason)) ∧
    (resp = .ok .deny →
      (handle_tool_call_with_approval env resp call).result =
        .ok (.toolResult call.id "command denied by user")) ∧
    (∀ e, resp = .error e →
      (handle_tool_call_with_approval env resp call).result = .error e) ∧
    (∀ p e, resp = .ok (.allowAlways p) → env.dbSaveRule p = .error e →
      (handle_tool_call_with_approval env resp call).result = .error e) := by
  have hexec : handle_tool_call env call = .ok (.toolResult call.id reason) := by
    rw [handle_tool_call_exec env call input hname hparse,
      execute_command_blocked env.run input.command input.timeout_secs reason hblocked]
  have hreq : requires_approval call = true := by
    simp [requires_approval, hname]
  refine ⟨?_, ?_, ?_, ?_⟩
  · rintro d rfl hd hsave
    cases d with
    | allowOnce => simp [handle_tool_call_with_approval, hreq, hexec]
    | autoApproved => simp [handle_tool_call_with_approval, hreq, hexec]
    | deny => exact absurd rfl hd
    | allowAlways p =>
      have hs := hsave p rfl
      simp [handle_tool_call_with_approval, hreq, hs, hexec]
  · rintro rfl
    simp [handle_tool_call_with_approval, hreq]
  · rintro e rfl
    simp [handle_tool_call_with_approval, hreq]
  · rintro p e rfl hdb
    simp [handle_tool_call_with_approval, hreq, hdb]

/-- C2 witness: `rm -rf /` under an allow-once decision is rejected with
the safety-filter reason. -/
theorem safety_filter_cannot_be_overridden_witness :
    (handle_tool_call_with_approval sampleEnv (.ok .allowOnce) callRmRf).result =
      .ok (.toolResult "toolu_2" "command blocked: matches safety filter") :=
  (safety_filter_cannot_be_overridden sampleEnv (.ok .allowOnce) callRmRf
    ⟨"rm -rf /", none⟩ "command blocked: matches safety filter" rfl rfl rfl).1
    .allowOnce rfl (by decide) (fun _ h => nomatch h)

/-- C3 counterexample: a `remember_fact` call with fully valid input and
a failing persistence collaborator makes `handle_tool_call` return an
error (the `?` on `db.remember_fact`, src/tool/mod.rs 145), not a
tool-result text — so the dispatch does not degrade every collaborator
failure to text. -/
theorem dispatch_errors_on_db_failure :
    handle_tool_call failingDbEnv callRemember = .error (.database "disk I/O error") :=
  rfl

/-- C3 (amended): `handle_tool_call` returns a tool-result text in every
case — invalid or missing input fields, unknown tools, exec and web
failures — except exactly one: a `remember_fact` call whose input
deserializes successfully and whose persistence write fails, which
propagates that failure as a returned error. -/
theorem handle_tool_call_error_iff (env : Collaborators) (call : ToolCall) :
    (∃ e, handle_tool_call env call = .error e) ↔
      (call.name = "remember_fact" ∧
        ∃ input, parseRememberFactInput call.input = some input ∧
          ∃ e, env.dbRemember input.category input.key input.value = .error e) := by
  by_cases h1 : call.name = REMEMBER_FACT_TOOL_NAME
  · rw [handle_tool_call, if_pos h1]
    cases hp : parseRememberFactInput call.input with
    | none => simp [hp, h1]
    | some input =>
      cases hdb : env.dbRemember input.category input.key input.value with
      | ok u => simp [hp, hdb, h1]
      | error e => simp [hp, hdb, h1]
  · rw [handle_tool_call, if_neg h1]
    simp only [h1, false_and, iff_false]
    by_cases h2 : call.name = EXEC_TOOL_NAME
    · rw [if_pos h2]
      cases hp : parseExecInput call.input <;> simp
    · rw [if_neg h2]
      by_cases h3 : call.name = WEB_SEARCH_TOOL_NAME
      · rw [if_pos h3]
        cases hp : parseWebSearchInput call.input <;> simp
      · rw [if_neg h3]
        by_cases h4 : call.name = WEB_FETCH_TOOL_NAME
        · rw [if_pos h4]
          cases hp : parseWebFetchInput call.input <;> simp
        · rw [if_neg h4]
          simp

/-! Approval Registry and Telegram approver (src/approver.rs). -/

/-- An in-flight approval entry (src/approver.rs 13-16); the one-shot
reply slot is represented by its delivery effect in
`CallbackResult.delivered`. -/
structure PendingApproval where
  message_id : Int
deriving DecidableEq

/-- Association-list model of the nonce-keyed `PendingApprovals` map
(src/approver.rs 20-30); nonces are char-list strings. -/
def lookupKey (m : List (List Char × PendingApproval)) (k : List Char) :
    Option PendingApproval :=
  match m with
  | [] => none
  | e :: rest => if e.1 = k then some e.2 else lookupKey rest k

/-- `HashMap::remove`: drop the binding of `k`. -/
def removeKey (m : List (List Char × PendingApproval)) (k : List Char) :
    List (List Char × PendingApproval) :=
  m.filter fun e => decide (e.1 ≠ k)

theorem removeKey_of_lookup_none (m : List (List Char × PendingApproval))
    (k : List Char) (h : lookupKey m k = none) : removeKey m k = m := by
  induction m with
  | nil => rfl
  | cons e rest ih =>
    rw [lookupKey] at h
    by_cases he : e.1 = k
    · rw [if_pos he] at h
      cases h
    · rw [if_neg he] at h
      simp only [removeKey, List.filter_cons, decide_eq_true_eq]
      rw [if_pos he]
      exact congrArg (e :: ·) (ih h)

theorem lookupKey_removeKey (m : List (List Char × PendingApproval))
    (k : List Char) : lookupKey (removeKey m k) k = none := by
  induction m with
  | nil => rfl
  | cons e rest ih =>
    by_cases he : e.1 = k
    · simpa [removeKey, List.filter_cons, he] using ih
    · simpa [removeKey, List.filter_cons, he, lookupKey] using ih

/-- Split a char string at its first colon (one step of Rust
`str::splitn(3, ':')`, src/approver.rs 57). -/
def splitFirstColon : List Char → Option (List Char × List Char)
  | [] => none
  | c :: rest =>
    if c = ':' then some ([], rest)
    else
      match splitFirstColon rest with
      | some (a, b) => some (c :: a, b)
      | none => none

/-- Rust `data.splitn(3, ':')`: at most three fields, the last keeping
any further colons. -/
def splitn3Colon (s : List Char) : List (List Char) :=
  match splitFirstColon s with
  | none => [s]
  | some (a, r) =>
    match splitFirstColon r with
    | none => [a, r]
    | some (b, r2) => [a, b, r2]

/-- The callback payload `exec:{nonce}:{action}` built for the inline
keyboard (src/approver.rs 128-143). -/
def approvalPayload (nonce action : List Char) : List Char :=
  "exec".toList ++ ':' :: (nonce ++ ':' :: action)

/-- The observable effects of one `TelegramApprover::handle_callback`
run (src/approver.rs 49-112): the recognition flag it returns, the
registry map afterwards, the decision delivered through the removed
entry's reply slot (if any), the `answer_callback_query` text, and the
message edit performed. -/
structure CallbackResult where
  handled : Bool
  map : List (List Char × PendingApproval)
  delivered : Option ApprovalDecision
  ack : Option (Option String)
  edited : Option (Int × String)

/-- Mirrors `TelegramApprover::handle_callback` (src/approver.rs
49-112).  A malformed payload is not recognized (`handled = false`); a
well-formed payload is always recognized — even when the nonce is
unknown, where the code answers "this approval request has expired" and
returns `true`.  On a known nonce the entry is removed first, then the
decision (allow-always carries an empty pattern at this stage, line
83-85) is delivered, the message edited and the callback acknowledged;
an unknown action still removes the entry but delivers nothing. -/
def handle_callback (pending : List (List Char × PendingApproval))
    (data : List Char) : CallbackResult :=
  match splitn3Colon data with
  | [p0, p1, p2] =>
    if p0 = "exec".toList then
      match lookupKey pending p1 with
      | none =>
        ⟨true, pending, none, some (some "this approval request has expired"), none⟩
      | some approval =>
        let rest := removeKey pending p1
        if p2 = "allow_once".toList then
          ⟨true, rest, some .allowOnce, some none,
            some (approval.message_id, "-> approved (once)")⟩
        else if p2 = "allow_always".toList then
          ⟨true, rest, some (.allowAlways ""), some none,
            some (approval.message_id, "-> approved (always)")⟩
        else if p2 = "deny".toList then
          ⟨true, rest, some .deny, some none,
            some (approval.message_id, "-> denied")⟩
        else
          ⟨true, rest, none, some (some "unknown action"), none⟩
    else ⟨false, pending, none, none, none⟩
  | _ => ⟨false, pending, none, none, none⟩

theorem splitFirstColon_append (l r : List Char) (hl : ':' ∉ l) :
    splitFirstColon (l ++ ':' :: r) = some (l, r) := by
  induction l with
  | nil => simp [splitFirstColon]
  | cons c cs ih =>
    have hc : ¬ c = ':' := fun h => hl (by simp [h])
    have hcs : ':' ∉ cs := fun h => hl (by simp [h])
    simp [splitFirstColon, hc, ih hcs]

theorem splitn3Colon_payload (nonce action : List Char) (h : ':' ∉ nonce) :
    splitn3Colon (approvalPayload nonce action) =
      ["exec".toList, nonce, action] := by
  rw [approvalPayload, splitn3Colon,
    splitFirstColon_append "exec".toList (nonce ++ ':' :: action) (by decide)]
  simp [splitFirstColon_append nonce action h]

theorem handle_callback_unknown (pending : List (List Char × PendingApproval))
    (nonce action : List Char) (hn : ':' ∉ nonce)
    (hlk : lookupKey pending nonce = none) :
    handle_callback pending (approvalPayload nonce action) =
      ⟨true, pending, none, some (some "this approval request has expired"), none⟩ := by
  rw [handle_callback, splitn3Colon_payload nonce action hn]
  simp [hlk]

theorem handle_callback_known_once (pending : List (List Char × PendingApproval))
    (nonce : List Char) (entry : PendingApproval) (hn : ':' ∉ nonce)
    (hlk : lookupKey pending nonce = some entry) :
    handle_callback pending (approvalPayload nonce "allow_once".toList) =
      ⟨true, removeKey pending nonce, some .allowOnce, some none,
        some (entry.message_id, "-> approved (once)")⟩ := by
  rw [handle_callback, splitn3Colon_payload nonce "allow_once".toList hn]
  simp [hlk]

/-- C7 counterexample: resolving a nonce unknown to the registry (here:
the empty registry) is reported as handled — `handle_callback` returns
`true` after acknowledging "this approval request has expired" — not
`false` as claimed; it does deliver nothing. -/
theorem resolve_unknown_nonce_reports_handled :
    (handle_callback [] "exec:abc12345:allow_once".toList).handled = true ∧
    (handle_callback [] "exec:abc12345:allow_once".toList).delivered = none ∧
    (handle_callback [] "exec:abc12345:allow_once".toList).ack =
      some (some "this approval request has expired") :=
  ⟨rfl, rfl, rfl⟩

/-- C7 (amended): resolving an unknown nonce delivers no decision,
leaves the registry unchanged, and is answered "expired" — but the
routine returns `true` (callback recognized), not `false`; resolving a
registered nonce exactly once succeeds (the decision is delivered and
the entry removed), and a second resolution attempt on the same nonce
delivers nothing and is again answered as expired with `true`. -/
theorem handle_callback_resolution (pending : List (List Char × PendingApproval))
    (nonce : List Char) (entry : PendingApproval) (hn : ':' ∉ nonce) :
    (lookupKey pending nonce = none →
      (handle_callback pending (approvalPayload nonce "allow_once".toList)).handled = true ∧
      (handle_callback pending (approvalPayload nonce "allow_once".toList)).delivered = none ∧
      (handle_callback pending (approvalPayload nonce "allow_once".toList)).map = pending) ∧
    (lookupKey pending nonce = some entry →
      (handle_callback pending (approvalPayload nonce "allow_once".toList)).handled = true ∧
      (handle_callback pending (approvalPayload nonce "allow_once".toList)).delivered =
        some .allowOnce ∧
      lookupKey
        (handle_callback pending (approvalPayload nonce "allow_once".toList)).map nonce =
        none ∧
      (handle_callback
        (handle_callback pending (approvalPayload nonce "allow_once".toList)).map
        (approvalPayload nonce "allow_once".toList)).delivered = none ∧
      (handle_callback
        (handle_callback pending (approvalPayload nonce "allow_once".toList)).map
        (approvalPayload nonce "allow_once".toList)).handled = true) := by
  constructor
  · intro hlk
    rw [handle_callback_unknown pending nonce "allow_once".toList hn hlk]
    exact ⟨rfl, rfl, rfl⟩
  · intro hlk
    rw [handle_callback_known_once pending nonce entry hn hlk]
    have hgone : lookupKey (removeKey pending nonce) nonce = none :=
      lookupKey_removeKey pending nonce
    rw [handle_callback_unknown (removeKey pending nonce) nonce "allow_once".toList hn hgone]
    exact ⟨rfl, rfl, hgone, rfl, rfl⟩

/-- C7 witness: a registry holding nonce `abcd1234`. -/
theorem handle_callback_resolution_witness :
    (handle_callback [("abcd1234".toList, ⟨42⟩)]
      (approvalPayload "abcd1234".toList "allow_once".toList)).delivered =
      some ApprovalDecision.allowOnce ∧
    (handle_callback
      (handle_callback [("abcd1234".toList, ⟨42⟩)]
        (approvalPayload "abcd1234".toList "allow_once".toList)).map
      (approvalPayload "abcd1234".toList "allow_once".toList)).delivered = none :=
  have h := (handle_callback_resolution [("abcd1234".toList, ⟨42⟩)]
    "abcd1234".toList ⟨42⟩ (by decide)).2 rfl
  ⟨h.2.1, h.2.2.2.1⟩

/-- Outcome of the `tokio::time::timeout(…, rx)` race in
`TelegramApprover::request_approval` (src/approver.rs 174): the reply
slot yields a decision before the bound, the slot is dropped without a
value, or the bound elapses. -/
inductive WaitOutcome
  | received (d : ApprovalDecision)
  | senderDropped
  | timedOut

def APPROVAL_TIMEOUT_SECS : Nat := 300

/-- Mirrors the wait-and-cleanup phase of
`TelegramApprover::request_approval` (src/approver.rs 174-194), after
the request has been published and registered: `pending` is the registry
when the race completes and `outcome` the race result.  A received
allow-always decision gets its pattern regenerated from the command text
(lines 176-183); a timeout removes the registry entry and returns the
`ApprovalTimeout` error (lines 188-193); a dropped reply slot returns
the same error without touching the registry (lines 184-187 — its entry
was already removed by the callback side). -/
def request_approval_wait (pending : List (List Char × PendingApproval))
    (nonce : List Char) (command : List Char) (outcome : WaitOutcome) :
    Except Error ApprovalDecision × List (List Char × PendingApproval) :=
  match outcome with
  | .received d =>
    match d with
    | .allowAlways _ =>
      (.ok (.allowAlways (String.mk (generate_pattern command))), pending)
    | _ => (.ok d, pending)
  | .senderDropped => (.error .approvalTimeout, pending)
  | .timedOut => (.error .approvalTimeout, removeKey pending nonce)

/-- C8: when the 5-minute bound (the constant `APPROVAL_TIMEOUT_SECS =
300`) elapses without a correlated decision, `request_approval` fails
with the `ApprovalTimeout` error and the registry entry under the nonce
is removed; and when the reply slot is dropped without a value, the call
fails with the same error class. -/
theorem request_approval_timeout_behaviour
    (pending : List (List Char × PendingApproval)) (nonce command : List Char) :
    APPROVAL_TIMEOUT_SECS = 300 ∧
    (request_approval_wait pending nonce command .timedOut).1 =
      .error .approvalTimeout ∧
    lookupKey (request_approval_wait pending nonce command .timedOut).2 nonce = none ∧
    (request_approval_wait pending nonce command .senderDropped).1 =
      .error .approvalTimeout :=
  ⟨rfl, rfl, lookupKey_removeKey pending nonce, rfl⟩

/-- C9 helper types: the model's answer for one turn
(src/provider/mod.rs `ProviderResponse`, as the loop observes it). -/
structure ProviderResponse where
  content : String
  tool_calls : List ToolCall

/-- The agent loop of `Agent::process` (src/agent/mod.rs 26-70).
`responses` gives the model's response at each successive turn and
`handler` the outcome of `handle_tool_call_with_approval` for each tool
call of a turn; the conversation assembly carries no control flow and is
elided.  The loop returns the content when no tools are requested;
otherwise it increments `tool_rounds` and aborts with the provider error
`tool loop exceeded` once the counter exceeds 5 (lines 46-49), before
handling that round's calls; each call's result is awaited in order and
the first error propagates (line 65). -/
def processAux (responses : Nat → ProviderResponse)
    (handler : Nat → ToolCall → Except Error MessageContent)
    (turn tool_rounds : Nat) : Except Error String :=
  let response := responses turn
  if response.tool_calls.isEmpty then .ok response.content
  else if _h : tool_rounds + 1 > 5 then .error (.provider "tool loop exceeded")
  else
    match response.tool_calls.mapM (handler turn) with
    | .error e => .error e
    | .ok _ => processAux responses handler (turn + 1) (tool_rounds + 1)
termination_by 6 - tool_rounds
decreasing_by omega

/-- `Agent::process` begins with zero completed tool rounds. -/
def process (responses : Nat → ProviderResponse)
    (handler : Nat → ToolCall → Except Error MessageContent) :
    Except Error String :=
  processAux responses handler 0 0

theorem mapM_ok_of_all_ok (f : ToolCall → Except Error MessageContent)
    (l : List ToolCall) (h : ∀ a ∈ l, ∃ b, f a = .ok b) :
    ∃ bs, l.mapM f = .ok bs := by
  induction l with
  | nil => exact ⟨[], rfl⟩
  | cons a as ih =>
    obtain ⟨b, hb⟩ := h a (by simp)
    obtain ⟨bs, hbs⟩ := ih (fun x hx => h x (by simp [hx]))
    refine ⟨b :: bs, ?_⟩
    rw [List.mapM_cons, hb, hbs]
    rfl

/-- C9: when the model requests at least one tool call on each of the
first 6 turns (and tool handling itself reports results rather than
infrastructure errors), the agent loop terminates with the round-limit
provider error `tool loop exceeded` — the counter check aborts the 6th
tool round before handling its calls — rather than looping
indefinitely. -/
theorem tool_loop_round_limit (responses : Nat → ProviderResponse)
    (handler : Nat → ToolCall → Except Error MessageContent)
    (htools : ∀ i, i < 6 → (responses i).tool_calls ≠ [])
    (hhandler : ∀ i call, ∃ mc, handler i call = .ok mc) :
    process responses handler = .error (.provider "tool loop exceeded") := by
  have step : ∀ turn tr, tr + 1 ≤ 5 → (responses turn).tool_calls ≠ [] →
      processAux responses handler turn tr =
        processAux responses handler (turn + 1) (tr + 1) := by
    intro turn tr htr hne
    obtain ⟨bs, hbs⟩ := mapM_ok_of_all_ok (handler turn) (responses turn).tool_calls
      (fun a _ => hhandler turn a)
    rw [processAux]
    rw [if_neg (fun hemp => hne (List.isEmpty_iff.mp hemp)), dif_neg (by omega), hbs]
  have hfinal : processAux responses handler 5 5 =
      .error (.provider "tool loop exceeded") := by
    rw [processAux]
    rw [if_neg (fun hemp => htools 5 (by omega) (List.isEmpty_iff.mp hemp)),
      dif_pos (by omega)]
  rw [process,
    step 0 0 (by omega) (htools 0 (by omega)),
    step 1 1 (by omega) (htools 1 (by omega)),
    step 2 2 (by omega) (htools 2 (by omega)),
    step 3 3 (by omega) (htools 3 (by omega)),
    step 4 4 (by omega) (htools 4 (by omega)),
    hfinal]

/-- C9 witness: a model that requests the same exec call on every turn,
with an always-succeeding handler. -/
theorem tool_loop_round_limit_witness :
    process (fun _ => ⟨"working on it", [callCargo]⟩)
      (fun _ call => .ok (.toolResult call.id "ok")) =
      .error (.provider "tool loop exceeded") :=
  tool_loop_round_limit _ _ (fun i _ => by simp)
    (fun i call => ⟨.toolResult call.id "ok", rfl⟩)

end Ava
